import Mathlib

/-!
Verification of `sgkit/utils.py` (functions `check_array_like`, `encode_array`
and `split_array_chunks`) against its natural-language specification.

The Python code is shallowly embedded: Python `int` becomes `Int` (in the
guarded branch of `split_array_chunks` both operands are positive, where
Python floor division and modulo agree with Lean's `/` and `%` on `Int`);
functions that can `raise` return `Except`; a `raise` with an f-string message
becomes an error value carrying the rendered message string, or — for
`check_array_like`, whose messages interpolate Python sets with unspecified
rendering order — an error constructor per raise site carrying exactly the
interpolated data.  Sequences become `List`, numpy index vectors become
`List Nat`.  `encode_array` works for any element type with a decidable
linear order (`np.unique` sorts), and is proved equal to a direct one-pass
first-appearance encoder, from which the claimed properties follow.
-/

namespace Sgkit

/-! Definitions: chunk partitioner `split_array_chunks`.

Python source:
```
if blocks > n:
    raise ValueError(
        f"Number of blocks ({blocks}) cannot be greater "
        f"than number of elements ({n})")
if n <= 0:
    raise ValueError(f"Number of elements ({n}) must be >= 0")
if blocks <= 0:
    raise ValueError(f"Number of blocks ({blocks}) must be >= 0")
n_div, n_mod = np.divmod(n, blocks)
chunks = n_mod * (n_div + 1,) + (blocks - n_mod) * (n_div,)
return chunks
```
-/

/-- The f-string of the `blocks > n` raise site. -/
def msgBlocksGtN (blocks n : Int) : String :=
  "Number of blocks (" ++ toString blocks ++ ") cannot be greater " ++
    "than number of elements (" ++ toString n ++ ")"

/-- The f-string of the `n <= 0` raise site. -/
def msgNLeZero (n : Int) : String :=
  "Number of elements (" ++ toString n ++ ") must be >= 0"

/-- The f-string of the `blocks <= 0` raise site. -/
def msgBlocksLeZero (blocks : Int) : String :=
  "Number of blocks (" ++ toString blocks ++ ") must be >= 0"

/-- Embedding of `split_array_chunks`.  `np.divmod` on positive operands is
floor division and remainder, which agree with `Int`'s `/` and `%` there;
tuple repetition `k * (v,)` is `List.replicate`. -/
def split_array_chunks (n blocks : Int) : Except String (List Int) :=
  if blocks > n then
    .error (msgBlocksGtN blocks n)
  else if n ≤ 0 then
    .error (msgNLeZero n)
  else if blocks ≤ 0 then
    .error (msgBlocksLeZero blocks)
  else
    let n_div := n / blocks
    let n_mod := n % blocks
    .ok (List.replicate n_mod.toNat (n_div + 1) ++
         List.replicate (blocks - n_mod).toNat n_div)

/-! Definitions: contract validator `check_array_like`.

Python source layout: four sequential blocks — an attribute-presence loop over
`("ndim", "dtype", "shape")` raising `TypeError`, then a `dtype` block, a
`kind` block (both raising `TypeError`) and an `ndim` block (raising
`ValueError`).  Each raise site becomes a distinct error constructor carrying
exactly the data interpolated into its f-string. -/

/-- A numpy dtype value: a canonical element type together with its kind
character (`a.dtype.kind` in the source). -/
structure DType where
  descr : String
  kind : String
deriving DecidableEq

/-- Modelled from the spec: numpy (`np.dtype`) is not part of the repository.
A dtype expression, as supplied by callers, pairs its textual form with the
canonical `DType` it normalizes to, treating "dtype comparison as exact-match
against a normalized type representation". -/
structure DTypeExpr where
  form : String
  canon : DType
deriving DecidableEq

/-- Modelled from the spec: `np.dtype` maps a dtype expression to its
normalized canonical representation. -/
def npDtype (t : DTypeExpr) : DType := t.canon

/-- A `Union[None, T, Set[T]]` parameter with the `None` stripped off: either
a single value or a set of acceptable values (a Python set, embedded as the
list of its members). -/
inductive SetOr (α : Type) where
  | single (x : α)
  | set (xs : List α)
deriving DecidableEq

/-- A duck-typed value: each of the three array attributes may be absent. -/
structure ArrayValue where
  ndimAttr : Option Nat
  dtypeAttr : Option DType
  shapeAttr : Option (List Nat)
deriving DecidableEq

/-- The `a.dtype` access, defined when the attribute is present (which the
source checks first). -/
def ArrayValue.dtype (a : ArrayValue) : DType := a.dtypeAttr.getD ⟨"", ""⟩

/-- The `a.ndim` access, defined when the attribute is present (which the
source checks first). -/
def ArrayValue.ndim (a : ArrayValue) : Nat := a.ndimAttr.getD 0

/-- The `hasattr(a, k)` probe for the three array attributes. -/
def hasattr (a : ArrayValue) : String → Bool
  | "ndim" => a.ndimAttr.isSome
  | "dtype" => a.dtypeAttr.isSome
  | "shape" => a.shapeAttr.isSome
  | _ => false

/-- The tuple `array_attrs = "ndim", "dtype", "shape"`. -/
def array_attrs : List String := ["ndim", "dtype", "shape"]

/-- One constructor per raise site of `check_array_like`, carrying the data
interpolated into that site's f-string. -/
inductive CheckError where
  | missingAttr (attr : String)
  | dtypeNotInSet (actual : DType) (expected : List DType)
  | dtypeMismatch (actual : DType) (expected : DType)
  | kindNotInSet (actual : String) (expected : List String)
  | kindMismatch (actual : String) (expected : String)
  | ndimNotInSet (actual : Nat) (expected : List Nat)
  | ndimMismatch (actual : Nat) (expected : Nat)
deriving DecidableEq

/-- The Python exception class of each raise site: `TypeError` for the
attribute and dtype/kind sites, `ValueError` for the two ndim sites. -/
def CheckError.isTypeError : CheckError → Bool
  | .ndimNotInSet _ _ => false
  | .ndimMismatch _ _ => false
  | _ => true

/-- The attribute loop: `for k in array_attrs: if not hasattr(a, k): raise
TypeError(...)` — the first missing attribute, in tuple order, raises. -/
def attrCheck (a : ArrayValue) : Except CheckError Unit :=
  match array_attrs.find? (fun k => ! hasattr a k) with
  | some k => .error (.missingAttr k)
  | none => .ok ()

/-- The `dtype` block of `check_array_like`. -/
def dtypeCheck (a : ArrayValue) : Option (SetOr DTypeExpr) → Except CheckError Unit
  | none => .ok ()
  | some (.set ts) =>
      let ds := ts.map npDtype
      if a.dtype ∉ ds then .error (.dtypeNotInSet a.dtype ds) else .ok ()
  | some (.single t) =>
      if a.dtype ≠ npDtype t then .error (.dtypeMismatch a.dtype (npDtype t))
      else .ok ()

/-- The `kind` block of `check_array_like`. -/
def kindCheck (a : ArrayValue) : Option (SetOr String) → Except CheckError Unit
  | none => .ok ()
  | some (.set ks) =>
      if a.dtype.kind ∉ ks then .error (.kindNotInSet a.dtype.kind ks) else .ok ()
  | some (.single k) =>
      if a.dtype.kind ≠ k then .error (.kindMismatch a.dtype.kind k) else .ok ()

/-- The `ndim` block of `check_array_like`. -/
def ndimCheck (a : ArrayValue) : Option (SetOr Nat) → Except CheckError Unit
  | none => .ok ()
  | some (.set ns) =>
      if a.ndim ∉ ns then .error (.ndimNotInSet a.ndim ns) else .ok ()
  | some (.single n) =>
      if n ≠ a.ndim then .error (.ndimMismatch a.ndim n) else .ok ()

/-- Embedding of `check_array_like`: the four blocks in source order; a raise
in an earlier block aborts the call. -/
def check_array_like (a : ArrayValue)
    (dtype : Option (SetOr DTypeExpr))
    (kind : Option (SetOr String))
    (ndim : Option (SetOr Nat)) : Except CheckError Unit := do
  attrCheck a
  dtypeCheck a dtype
  kindCheck a kind
  ndimCheck a ndim

/-! Definitions: stable encoder `encode_array`.

Python source:
```
names, index, inverse = np.unique(x, return_index=True, return_inverse=True)
index = np.argsort(index)
rank = np.empty_like(index)
rank[index] = np.arange(len(index))
return rank[inverse], names[index]
```
-/

variable {α : Type*} [LinearOrder α] [DecidableEq α]

/-- The distinct values of a list in order of first appearance, written with
explicit fuel (the list length) so that it reduces structurally; the direct
reference implementation that `encode_array` is proved to compute. -/
def uniqueInOrderAux : Nat → List α → List α
  | 0, _ => []
  | _, [] => []
  | fuel + 1, a :: l => a :: uniqueInOrderAux fuel (l.filter (fun b => b ≠ a))

/-- The distinct values of `x` in order of first appearance in `x`. -/
def uniqueInOrder (x : List α) : List α := uniqueInOrderAux x.length x

/-- numpy fancy indexing `l[idx]` for an index vector (the indices are proved
in-range wherever this is used). -/
def fancyIndex (l : List α) (idx : List Nat) : List α :=
  idx.filterMap (fun i => l[i]?)

/-- The `names` result of `np.unique(x)`: the distinct values of `x`, sorted
ascending. -/
def npUniqueNames (x : List α) : List α := x.toFinset.sort (· ≤ ·)

/-- The `return_index=True` result of `np.unique`: for each unique value, the
index of its first occurrence in `x`. -/
def npUniqueIndex (x : List α) : List Nat :=
  (npUniqueNames x).map (fun v => x.indexOf v)

/-- The `return_inverse=True` result of `np.unique`: for each element of `x`,
its position among the sorted unique values. -/
def npUniqueInverse (x : List α) : List Nat :=
  x.map (fun v => (npUniqueNames x).indexOf v)

/-- `np.argsort(v)`: the indices `0 .. len v - 1` ordered by their `v`
values (`v` has pairwise-distinct entries at the call site). -/
def argsort (v : List Nat) : List Nat :=
  (List.range v.length).mergeSort (fun i j => v.getD i 0 ≤ v.getD j 0)

/-- The `rank` array assembled by `rank[index] = np.arange(len(index))`: the
inverse permutation of `index` (position `i` holds the position at which `i`
occurs in `index`). -/
def rankOf (asort : List Nat) : List Nat :=
  (List.range asort.length).map (fun i => asort.indexOf i)

/-- Embedding of `encode_array`: codes are `rank[inverse]`, uniques are
`names[index]` after `index = np.argsort(index)`. -/
def encode_array (x : List α) : List Nat × List α :=
  let names := npUniqueNames x
  let index := npUniqueIndex x
  let inverse := npUniqueInverse x
  let asort := argsort index
  let rank := rankOf asort
  (inverse.filterMap (fun i => rank[i]?), fancyIndex names asort)

/-! Lemmas: distinctness of the `split_array_chunks` error messages. -/

lemma lastChar_msgNLeZero (n : Int) : (msgNLeZero n).data.getLast? = some '0' := by
  rw [msgNLeZero, String.data_append, String.data_append, List.getLast?_append]
  rfl

lemma lastChar_msgBlocksLeZero (b : Int) :
    (msgBlocksLeZero b).data.getLast? = some '0' := by
  rw [msgBlocksLeZero, String.data_append, String.data_append, List.getLast?_append]
  rfl

lemma lastChar_msgBlocksGtN (b n : Int) :
    (msgBlocksGtN b n).data.getLast? = some ')' := by
  rw [msgBlocksGtN, String.data_append, String.data_append, String.data_append,
    String.data_append, List.getLast?_append]
  rfl

lemma char10_msgNLeZero (n : Int) : (msgNLeZero n).data[10]? = some 'e' := by
  rw [msgNLeZero, String.data_append, String.data_append]
  rw [List.getElem?_append_left, List.getElem?_append_left] <;> simp

lemma char10_msgBlocksLeZero (b : Int) : (msgBlocksLeZero b).data[10]? = some 'b' := by
  rw [msgBlocksLeZero, String.data_append, String.data_append]
  rw [List.getElem?_append_left, List.getElem?_append_left] <;> simp

lemma msgBlocksGtN_ne_msgNLeZero (b n n' : Int) : msgBlocksGtN b n ≠ msgNLeZero n' := by
  intro h
  have h2 : (msgBlocksGtN b n).data.getLast? = (msgNLeZero n').data.getLast? := by
    rw [h]
  rw [lastChar_msgBlocksGtN, lastChar_msgNLeZero] at h2
  simp at h2

lemma msgBlocksGtN_ne_msgBlocksLeZero (b n b' : Int) :
    msgBlocksGtN b n ≠ msgBlocksLeZero b' := by
  intro h
  have h2 : (msgBlocksGtN b n).data.getLast? = (msgBlocksLeZero b').data.getLast? := by
    rw [h]
  rw [lastChar_msgBlocksGtN, lastChar_msgBlocksLeZero] at h2
  simp at h2

lemma msgNLeZero_ne_msgBlocksLeZero (n b : Int) : msgNLeZero n ≠ msgBlocksLeZero b := by
  intro h
  have h2 : (msgNLeZero n).data[10]? = (msgBlocksLeZero b).data[10]? := by
    rw [h]
  rw [char10_msgNLeZero, char10_msgBlocksLeZero] at h2
  simp at h2

/-! Lemmas: behaviour of the four blocks of `check_array_like`. -/

lemma check_of_attrError (a : ArrayValue) (d : Option (SetOr DTypeExpr))
    (k : Option (SetOr String)) (n : Option (SetOr Nat)) (e : CheckError)
    (h : attrCheck a = .error e) : check_array_like a d k n = .error e := by
  simp [check_array_like, h, bind, Except.bind]

lemma check_of_dtypeError (a : ArrayValue) (d : Option (SetOr DTypeExpr))
    (k : Option (SetOr String)) (n : Option (SetOr Nat)) (e : CheckError)
    (h1 : attrCheck a = .ok ()) (h2 : dtypeCheck a d = .error e) :
    check_array_like a d k n = .error e := by
  simp [check_array_like, h1, h2, bind, Except.bind]

lemma check_of_kindError (a : ArrayValue) (d : Option (SetOr DTypeExpr))
    (k : Option (SetOr String)) (n : Option (SetOr Nat)) (e : CheckError)
    (h1 : attrCheck a = .ok ()) (h2 : dtypeCheck a d = .ok ())
    (h3 : kindCheck a k = .error e) : check_array_like a d k n = .error e := by
  simp [check_array_like, h1, h2, h3, bind, Except.bind]

lemma check_of_allOk (a : ArrayValue) (d : Option (SetOr DTypeExpr))
    (k : Option (SetOr String)) (n : Option (SetOr Nat))
    (h1 : attrCheck a = .ok ()) (h2 : dtypeCheck a d = .ok ())
    (h3 : kindCheck a k = .ok ()) : check_array_like a d k n = ndimCheck a n := by
  simp [check_array_like, h1, h2, h3, bind, Except.bind]

lemma attrCheck_missing (a : ArrayValue)
    (h : ¬(hasattr a "ndim" = true ∧ hasattr a "dtype" = true ∧
        hasattr a "shape" = true)) :
    attrCheck a = .error (.missingAttr
      (if hasattr a "ndim" = false then "ndim"
       else if hasattr a "dtype" = false then "dtype" else "shape")) := by
  rcases a with ⟨nd, dt, sh⟩
  cases nd <;> cases dt <;> cases sh <;>
    simp_all [attrCheck, array_attrs, hasattr, List.find?]

lemma attrCheck_error_isTypeError (a : ArrayValue) (e : CheckError)
    (h : attrCheck a = .error e) : e.isTypeError = true := by
  cases hf : array_attrs.find? (fun k => ! hasattr a k) with
  | none => rw [attrCheck, hf] at h; cases h
  | some k =>
      rw [attrCheck, hf] at h
      simp only [Except.error.injEq] at h
      rw [← h]
      rfl

lemma dtypeCheck_error_isTypeError (a : ArrayValue) (d : Option (SetOr DTypeExpr))
    (e : CheckError) (h : dtypeCheck a d = .error e) : e.isTypeError = true := by
  rcases d with - | t | ts
  · cases h
  · rw [dtypeCheck] at h
    split at h
    · simp only [Except.error.injEq] at h; rw [← h]; rfl
    · cases h
  · rw [dtypeCheck] at h
    split at h
    · simp only [Except.error.injEq] at h; rw [← h]; rfl
    · cases h

lemma kindCheck_error_isTypeError (a : ArrayValue) (k : Option (SetOr String))
    (e : CheckError) (h : kindCheck a k = .error e) : e.isTypeError = true := by
  rcases k with - | s | ks
  · cases h
  · rw [kindCheck] at h
    split at h
    · simp only [Except.error.injEq] at h; rw [← h]; rfl
    · cases h
  · rw [kindCheck] at h
    split at h
    · simp only [Except.error.injEq] at h; rw [← h]; rfl
    · cases h

lemma ndimCheck_error_isValueError (a : ArrayValue) (n : Option (SetOr Nat))
    (e : CheckError) (h : ndimCheck a n = .error e) : e.isTypeError = false := by
  rcases n with - | m | ns
  · cases h
  · rw [ndimCheck] at h
    split at h
    · simp only [Except.error.injEq] at h; rw [← h]; rfl
    · cases h
  · rw [ndimCheck] at h
    split at h
    · simp only [Except.error.injEq] at h; rw [← h]; rfl
    · cases h

/-! Lemmas: the first-appearance reference encoder `uniqueInOrder`. -/

lemma mem_uniqueInOrderAux :
    ∀ (fuel : Nat) (l : List α), l.length ≤ fuel →
      ∀ v, v ∈ uniqueInOrderAux fuel l ↔ v ∈ l := by
  intro fuel
  induction fuel with
  | zero =>
      intro l hl v
      rw [Nat.le_zero, List.length_eq_zero] at hl
      subst hl
      simp [uniqueInOrderAux]
  | succ fuel ih =>
      intro l hl v
      cases l with
      | nil => simp [uniqueInOrderAux]
      | cons a t =>
          have ht : (t.filter (fun b => b ≠ a)).length ≤ fuel := by
            have := List.length_filter_le (fun b => decide (b ≠ a)) t
            simp only [List.length_cons, Nat.succ_le_succ_iff] at hl
            omega
          rw [uniqueInOrderAux, List.mem_cons, ih _ ht v, List.mem_filter]
          constructor
          · rintro (rfl | ⟨hv, -⟩)
            · exact List.mem_cons_self _ _
            · exact List.mem_cons_of_mem _ hv
          · intro hv
            rcases List.mem_cons.mp hv with rfl | hv
            · exact Or.inl rfl
            · by_cases hva : v = a
              · exact Or.inl hva
              · exact Or.inr ⟨hv, by simpa using hva⟩

lemma mem_uniqueInOrder (x : List α) (v : α) : v ∈ uniqueInOrder x ↔ v ∈ x :=
  mem_uniqueInOrderAux x.length x le_rfl v

lemma nodup_uniqueInOrderAux :
    ∀ (fuel : Nat) (l : List α), l.length ≤ fuel →
      (uniqueInOrderAux fuel l).Nodup := by
  intro fuel
  induction fuel with
  | zero =>
      intro l hl
      rw [Nat.le_zero, List.length_eq_zero] at hl
      subst hl
      simp [uniqueInOrderAux]
  | succ fuel ih =>
      intro l hl
      cases l with
      | nil => exact List.nodup_nil
      | cons a t =>
          have ht : (t.filter (fun b => b ≠ a)).length ≤ fuel := by
            have := List.length_filter_le (fun b => decide (b ≠ a)) t
            simp only [List.length_cons, Nat.succ_le_succ_iff] at hl
            omega
          rw [uniqueInOrderAux, List.nodup_cons]
          refine ⟨?_, ih _ ht⟩
          intro ha
          have := (mem_uniqueInOrderAux fuel _ ht a).mp ha
          exact absurd (List.of_mem_filter this) (by simp)

lemma nodup_uniqueInOrder (x : List α) : (uniqueInOrder x).Nodup :=
  nodup_uniqueInOrderAux x.length x le_rfl

/-- Removing elements by `filter` does not change the relative order of the
first occurrences of the surviving values. -/
lemma indexOf_filter_lt (p : α → Bool) (l : List α) (u v : α)
    (hu : u ∈ l.filter p) (hv : v ∈ l.filter p)
    (h : (l.filter p).indexOf u < (l.filter p).indexOf v) :
    l.indexOf u < l.indexOf v := by
  induction l with
  | nil => simp at hu
  | cons a t ih =>
      by_cases hpa : p a
      · rw [List.filter_cons_of_pos hpa] at hu hv h
        by_cases hua : u = a
        · subst hua
          have hvu : v ≠ u := by
            rintro rfl
            simp [List.indexOf_cons_self] at h
          rw [List.indexOf_cons_self, List.indexOf_cons_ne _ (Ne.symm hvu)]
          exact Nat.succ_pos _
        · by_cases hva : v = a
          · subst hva
            rw [List.indexOf_cons_self] at h
            rw [List.indexOf_cons_ne _ (Ne.symm hua)] at h
            exact absurd h (Nat.not_lt_zero _)
          · have hu' : u ∈ t.filter p := by
              rcases List.mem_cons.mp hu with h1 | h1
              · exact absurd h1 hua
              · exact h1
            have hv' : v ∈ t.filter p := by
              rcases List.mem_cons.mp hv with h1 | h1
              · exact absurd h1 hva
              · exact h1
            rw [List.indexOf_cons_ne _ (Ne.symm hua),
              List.indexOf_cons_ne _ (Ne.symm hva)] at h
            rw [List.indexOf_cons_ne _ (Ne.symm hua),
              List.indexOf_cons_ne _ (Ne.symm hva)]
            rw [Nat.succ_lt_succ_iff] at h ⊢
            exact ih hu' hv' h
      · rw [List.filter_cons_of_neg hpa] at hu hv h
        have hua : u ≠ a := by
          rintro rfl
          exact hpa (List.of_mem_filter hu)
        have hva : v ≠ a := by
          rintro rfl
          exact hpa (List.of_mem_filter hv)
        rw [List.indexOf_cons_ne _ (Ne.symm hua),
          List.indexOf_cons_ne _ (Ne.symm hva), Nat.succ_lt_succ_iff]
        exact ih hu hv h

lemma pairwise_uniqueInOrderAux :
    ∀ (fuel : Nat) (l : List α), l.length ≤ fuel →
      List.Pairwise (fun u v => l.indexOf u < l.indexOf v)
        (uniqueInOrderAux fuel l) := by
  intro fuel
  induction fuel with
  | zero =>
      intro l hl
      rw [Nat.le_zero, List.length_eq_zero] at hl
      subst hl
      exact List.Pairwise.nil
  | succ fuel ih =>
      intro l hl
      cases l with
      | nil => exact List.Pairwise.nil
      | cons a t =>
          have ht : (t.filter (fun b => b ≠ a)).length ≤ fuel := by
            have := List.length_filter_le (fun b => decide (b ≠ a)) t
            simp only [List.length_cons, Nat.succ_le_succ_iff] at hl
            omega
          rw [uniqueInOrderAux, List.pairwise_cons]
          constructor
          · intro v hv
            have hvf := (mem_uniqueInOrderAux fuel _ ht v).mp hv
            have hva : v ≠ a := by simpa using List.of_mem_filter hvf
            rw [List.indexOf_cons_self, List.indexOf_cons_ne _ (Ne.symm hva)]
            exact Nat.succ_pos _
          · have hpw := ih _ ht
            refine List.Pairwise.imp_of_mem ?_ hpw
            intro u v hu hv huv
            have huf := (mem_uniqueInOrderAux fuel _ ht u).mp hu
            have hvf := (mem_uniqueInOrderAux fuel _ ht v).mp hv
            have hua : u ≠ a := by simpa using List.of_mem_filter huf
            have hva : v ≠ a := by simpa using List.of_mem_filter hvf
            have ht' := indexOf_filter_lt _ t u v huf hvf huv
            rw [List.indexOf_cons_ne _ (Ne.symm hua),
              List.indexOf_cons_ne _ (Ne.symm hva), Nat.succ_lt_succ_iff]
            exact ht'

lemma pairwise_uniqueInOrder (x : List α) :
    List.Pairwise (fun u v => x.indexOf u < x.indexOf v) (uniqueInOrder x) :=
  pairwise_uniqueInOrderAux x.length x le_rfl

lemma length_uniqueInOrderAux :
    ∀ (fuel : Nat) (l : List α), (uniqueInOrderAux fuel l).length ≤ l.length := by
  intro fuel
  induction fuel with
  | zero => intro l; simp [uniqueInOrderAux]
  | succ fuel ih =>
      intro l
      cases l with
      | nil => simp [uniqueInOrderAux]
      | cons a t =>
          rw [uniqueInOrderAux, List.length_cons, List.length_cons,
            Nat.succ_le_succ_iff]
          exact le_trans (ih _) (List.length_filter_le _ _)

lemma length_uniqueInOrder (x : List α) : (uniqueInOrder x).length ≤ x.length :=
  length_uniqueInOrderAux x.length x

/-! Lemmas: `npUnique` components and `argsort`. -/

lemma nodup_npUniqueNames (x : List α) : (npUniqueNames x).Nodup :=
  Finset.sort_nodup _ _

lemma mem_npUniqueNames (x : List α) (v : α) : v ∈ npUniqueNames x ↔ v ∈ x := by
  rw [npUniqueNames, Finset.mem_sort, List.mem_toFinset]

lemma length_npUniqueIndex (x : List α) :
    (npUniqueIndex x).length = (npUniqueNames x).length :=
  List.length_map _ _

lemma nodup_npUniqueIndex (x : List α) : (npUniqueIndex x).Nodup := by
  refine List.Nodup.map_on ?_ (nodup_npUniqueNames x)
  intro u hu v hv huv
  exact (List.indexOf_inj ((mem_npUniqueNames x u).mp hu)
    ((mem_npUniqueNames x v).mp hv)).mp huv

lemma argsort_perm_range (v : List Nat) :
    (argsort v).Perm (List.range v.length) :=
  List.mergeSort_perm _ _

lemma nodup_argsort (v : List Nat) : (argsort v).Nodup :=
  ((argsort_perm_range v).nodup_iff).mpr (List.nodup_range _)

lemma mem_argsort (v : List Nat) (i : Nat) : i ∈ argsort v ↔ i < v.length :=
  ((argsort_perm_range v).mem_iff).trans List.mem_range

lemma length_argsort (v : List Nat) : (argsort v).length = v.length :=
  ((argsort_perm_range v).length_eq).trans (List.length_range _)

lemma pairwise_le_argsort (v : List Nat) :
    List.Pairwise (fun i j => v.getD i 0 ≤ v.getD j 0) (argsort v) := by
  have htrans : ∀ a b c : Nat,
      (decide (v.getD a 0 ≤ v.getD b 0)) = true →
      (decide (v.getD b 0 ≤ v.getD c 0)) = true →
      (decide (v.getD a 0 ≤ v.getD c 0)) = true := by
    intro a b c hab hbc
    simp only [decide_eq_true_eq] at *
    omega
  have htotal : ∀ a b : Nat,
      ((decide (v.getD a 0 ≤ v.getD b 0)) ||
        (decide (v.getD b 0 ≤ v.getD a 0))) = true := by
    intro a b
    simp only [Bool.or_eq_true, decide_eq_true_eq]
    omega
  have h := @List.sorted_mergeSort Nat
    (fun i j => decide (v.getD i 0 ≤ v.getD j 0)) htrans htotal
    (List.range v.length)
  refine h.imp ?_
  intro a b hab
  simpa using hab

lemma pairwise_lt_argsort (v : List Nat) (hv : v.Nodup) :
    List.Pairwise (fun i j => v.getD i 0 < v.getD j 0) (argsort v) := by
  have hcomb : List.Pairwise
      (fun i j => (v.getD i 0 ≤ v.getD j 0) ∧ i ≠ j) (argsort v) :=
    List.pairwise_and_iff.mpr ⟨pairwise_le_argsort v, nodup_argsort v⟩
  refine List.Pairwise.imp_of_mem ?_ hcomb
  intro i j hi hj hij
  have hi' : i < v.length := (mem_argsort v i).mp hi
  have hj' : j < v.length := (mem_argsort v j).mp hj
  rcases hij with ⟨hle, hne⟩
  refine lt_of_le_of_ne hle ?_
  intro he
  apply hne
  refine List.getElem?_inj hi' hv ?_
  rw [List.getElem?_eq_getElem hi', List.getElem?_eq_getElem hj']
  rw [List.getD_eq_getElem v 0 hi', List.getD_eq_getElem v 0 hj'] at he
  rw [he]

lemma rankOf_getElem? (asort : List Nat) (i : Nat) (h : i < asort.length) :
    (rankOf asort)[i]? = some (asort.indexOf i) := by
  rw [rankOf, List.getElem?_map, List.getElem?_range h]
  rfl

/-- `filterMap` with a function that is `some` on every member is `map`. -/
lemma filterMap_eq_map_of_forall_some {γ δ : Type*} (l : List γ)
    (f : γ → Option δ) (g : γ → δ) (h : ∀ a ∈ l, f a = some (g a)) :
    l.filterMap f = l.map g := by
  induction l with
  | nil => rfl
  | cons a t ih =>
      rw [List.filterMap_cons, h a (List.mem_cons_self a t), List.map_cons,
        ih (fun b hb => h b (List.mem_cons_of_mem a hb))]

/-- Position of `v` in a fancy-indexed selection: if `v` sits at (unique)
position `i` of `names` and `i` occurs in `ks`, then `v`'s first occurrence in
`names[ks]` is where `i` first occurs in `ks`. -/
lemma indexOf_fancyIndex (names : List α) (hnames : names.Nodup) :
    ∀ (ks : List Nat), (∀ k ∈ ks, k < names.length) →
      ∀ (i : Nat) (v : α), i ∈ ks → names[i]? = some v →
        (fancyIndex names ks).indexOf v = ks.indexOf i := by
  intro ks
  induction ks with
  | nil => intro _ i v hi _; exact absurd hi (List.not_mem_nil i)
  | cons k ks' ih =>
      intro hks i v hi hiv
      have hk : k < names.length := hks k (List.mem_cons_self k ks')
      have hstep : fancyIndex names (k :: ks') =
          names[k] :: fancyIndex names ks' := by
        rw [fancyIndex, List.filterMap_cons, List.getElem?_eq_getElem hk]
        rfl
      by_cases hik : i = k
      · subst hik
        have hv : v = names[i] := by
          rw [List.getElem?_eq_getElem hk] at hiv
          exact (Option.some.injEq _ _ ▸ hiv).symm
        rw [hstep, hv, List.indexOf_cons_self, List.indexOf_cons_self]
      · have hi' : i ∈ ks' := by
          rcases List.mem_cons.mp hi with h1 | h1
          · exact absurd h1 hik
          · exact h1
        have hvk : v ≠ names[k] := by
          intro he
          apply hik
          have hilt : i < names.length := by
            rcases List.getElem?_eq_some.mp hiv with ⟨h', -⟩
            exact h'
          refine List.getElem?_inj hilt hnames ?_
          rw [hiv, List.getElem?_eq_getElem hk, he]
        rw [hstep, List.indexOf_cons_ne _ (Ne.symm hvk),
          List.indexOf_cons_ne _ (Ne.symm hik)]
        rw [ih (fun b hb => hks b (List.mem_cons_of_mem k hb)) i v hi' hiv]

/-! Lemmas: `encode_array` equals the direct first-appearance encoding. -/

lemma nodup_uniques (x : List α) :
    (fancyIndex (npUniqueNames x) (argsort (npUniqueIndex x))).Nodup := by
  refine List.Nodup.filterMap ?_ (nodup_argsort _)
  intro a a' b hb hb'
  have ha : a < (npUniqueNames x).length := by
    rcases List.getElem?_eq_some.mp hb with ⟨h', -⟩
    exact h'
  exact List.getElem?_inj ha (nodup_npUniqueNames x) (hb.trans hb'.symm)

lemma mem_uniques (x : List α) (v : α) :
    v ∈ fancyIndex (npUniqueNames x) (argsort (npUniqueIndex x)) ↔ v ∈ x := by
  rw [fancyIndex, List.mem_filterMap]
  constructor
  · rintro ⟨i, -, hiv⟩
    rcases List.getElem?_eq_some.mp hiv with ⟨h', he⟩
    rw [← he, ← mem_npUniqueNames x]
    exact List.getElem_mem h'
  · intro hv
    have hvn : v ∈ npUniqueNames x := (mem_npUniqueNames x v).mpr hv
    have hlt : (npUniqueNames x).indexOf v < (npUniqueNames x).length :=
      List.indexOf_lt_length.mpr hvn
    refine ⟨(npUniqueNames x).indexOf v, ?_, ?_⟩
    · rw [mem_argsort, length_npUniqueIndex]
      exact hlt
    · rw [List.getElem?_eq_getElem hlt, List.getElem_indexOf hlt]

lemma pairwise_uniques (x : List α) :
    List.Pairwise (fun u v => x.indexOf u < x.indexOf v)
      (fancyIndex (npUniqueNames x) (argsort (npUniqueIndex x))) := by
  rw [fancyIndex, List.pairwise_filterMap]
  have hlt := pairwise_lt_argsort (npUniqueIndex x) (nodup_npUniqueIndex x)
  refine List.Pairwise.imp_of_mem ?_ hlt
  intro i j hi hj hij b hb b' hb'
  have hi' : i < (npUniqueNames x).length := by
    rw [← length_npUniqueIndex]
    exact (mem_argsort _ i).mp hi
  have hj' : j < (npUniqueNames x).length := by
    rw [← length_npUniqueIndex]
    exact (mem_argsort _ j).mp hj
  have hbi : b = (npUniqueNames x)[i] := by
    rw [List.getElem?_eq_getElem hi', Option.mem_some_iff] at hb
    exact hb.symm
  have hbj : b' = (npUniqueNames x)[j] := by
    rw [List.getElem?_eq_getElem hj', Option.mem_some_iff] at hb'
    exact hb'.symm
  have hvi : (npUniqueIndex x).getD i 0 = x.indexOf b := by
    have hsome : (npUniqueIndex x)[i]? = some (x.indexOf b) := by
      rw [npUniqueIndex, List.getElem?_map, List.getElem?_eq_getElem hi', hbi]
      rfl
    rw [List.getD_eq_getElem?_getD, hsome]
    rfl
  have hvj : (npUniqueIndex x).getD j 0 = x.indexOf b' := by
    have hsome : (npUniqueIndex x)[j]? = some (x.indexOf b') := by
      rw [npUniqueIndex, List.getElem?_map, List.getElem?_eq_getElem hj', hbj]
      rfl
    rw [List.getD_eq_getElem?_getD, hsome]
    rfl
  rw [hvi, hvj] at hij
  exact hij

/-- The `uniques` component of `encode_array` is exactly the distinct values
in order of first appearance. -/
lemma uniques_eq (x : List α) :
    fancyIndex (npUniqueNames x) (argsort (npUniqueIndex x)) = uniqueInOrder x := by
  haveI : IsAntisymm α (fun u v => x.indexOf u < x.indexOf v) :=
    ⟨fun a b h1 h2 => absurd (h1.trans h2) (lt_irrefl _)⟩
  refine List.eq_of_perm_of_sorted ?_ (pairwise_uniques x) (pairwise_uniqueInOrder x)
  refine (List.perm_ext_iff_of_nodup (nodup_uniques x) (nodup_uniqueInOrder x)).mpr ?_
  intro v
  rw [mem_uniques x v, mem_uniqueInOrder x v]

/-- The `codes` component of `encode_array` is exactly the position of each
element in the first-appearance list of distinct values. -/
lemma codes_eq (x : List α) :
    (npUniqueInverse x).filterMap
        (fun i => (rankOf (argsort (npUniqueIndex x)))[i]?) =
      x.map (fun v => (uniqueInOrder x).indexOf v) := by
  rw [npUniqueInverse, List.filterMap_map]
  refine filterMap_eq_map_of_forall_some x _ _ ?_
  intro v hv
  have hvn : v ∈ npUniqueNames x := (mem_npUniqueNames x v).mpr hv
  have hlt : (npUniqueNames x).indexOf v < (npUniqueNames x).length :=
    List.indexOf_lt_length.mpr hvn
  have hlt' : (npUniqueNames x).indexOf v < (argsort (npUniqueIndex x)).length := by
    rw [length_argsort, length_npUniqueIndex]
    exact hlt
  have hstep : (Function.comp (fun i => (rankOf (argsort (npUniqueIndex x)))[i]?)
      (fun v => (npUniqueNames x).indexOf v)) v =
      some ((argsort (npUniqueIndex x)).indexOf ((npUniqueNames x).indexOf v)) := by
    rw [Function.comp_apply, rankOf_getElem? _ _ hlt']
  rw [hstep]
  congr 1
  rw [← uniques_eq x]
  refine (indexOf_fancyIndex (npUniqueNames x) (nodup_npUniqueNames x)
    (argsort (npUniqueIndex x)) ?_ ((npUniqueNames x).indexOf v) v ?_ ?_).symm
  · intro k hk
    rw [← length_npUniqueIndex]
    exact (mem_argsort _ k).mp hk
  · rw [mem_argsort, length_npUniqueIndex]
    exact hlt
  · rw [List.getElem?_eq_getElem hlt, List.getElem_indexOf hlt]

/-- `encode_array` coincides with the one-pass first-appearance encoder. -/
theorem encode_array_eq (x : List α) :
    encode_array x =
      (x.map (fun v => (uniqueInOrder x).indexOf v), uniqueInOrder x) := by
  show ((npUniqueInverse x).filterMap
      (fun i => (rankOf (argsort (npUniqueIndex x)))[i]?),
    fancyIndex (npUniqueNames x) (argsort (npUniqueIndex x))) = _
  rw [codes_eq, uniques_eq]

/-! Claim theorems. -/

/-- Claim C2: for every pair of integers `(n, blocks)` with `1 ≤ blocks ≤ n`,
`split_array_chunks n blocks` succeeds and returns a sequence of exactly
`blocks` positive integers summing exactly to `n`, consisting of exactly
`r = n % blocks` entries equal to `n / blocks + 1` followed by exactly
`blocks - r` entries equal to `n / blocks` (all larger entries precede all
smaller entries). -/
theorem split_array_chunks_partition (n blocks : Int)
    (h1 : 1 ≤ blocks) (h2 : blocks ≤ n) :
    ∃ l : List Int,
      split_array_chunks n blocks = .ok l ∧
      l = List.replicate (n % blocks).toNat (n / blocks + 1) ++
          List.replicate (blocks - n % blocks).toNat (n / blocks) ∧
      ((n % blocks).toNat : Int) = n % blocks ∧
      (((blocks - n % blocks)).toNat : Int) = blocks - n % blocks ∧
      (l.length : Int) = blocks ∧
      l.sum = n ∧
      (∀ v ∈ l, 0 < v) := by
  have hb : 0 < blocks := by linarith
  have hn : 0 < n := by linarith
  have hr0 : 0 ≤ n % blocks := Int.emod_nonneg n (by linarith)
  have hrb : n % blocks < blocks := Int.emod_lt_of_pos n hb
  have hq1 : 1 ≤ n / blocks := by
    rw [Int.le_ediv_iff_mul_le hb]; linarith
  have hde : blocks * (n / blocks) + n % blocks = n := Int.ediv_add_emod n blocks
  have hc1 : ((n % blocks).toNat : Int) = n % blocks := Int.toNat_of_nonneg hr0
  have hc2 : (((blocks - n % blocks)).toNat : Int) = blocks - n % blocks :=
    Int.toNat_of_nonneg (by linarith)
  refine ⟨_, ?_, rfl, hc1, hc2, ?_, ?_, ?_⟩
  · rw [split_array_chunks, if_neg (by omega), if_neg (by omega), if_neg (by omega)]
  · rw [List.length_append, List.length_replicate, List.length_replicate]
    push_cast [hc1, hc2]
    ring
  · rw [List.sum_append, List.sum_replicate, List.sum_replicate,
      nsmul_eq_mul, nsmul_eq_mul, hc1, hc2]
    ring_nf
    linarith [hde]
  · intro v hv
    rcases List.mem_append.mp hv with h | h
    · rw [List.eq_of_mem_replicate h]; linarith
    · rw [List.eq_of_mem_replicate h]; linarith

/-- Witness for C2 at the concrete input `(n, blocks) = (7, 3)`. -/
theorem split_array_chunks_partition_witness :
    split_array_chunks 7 3 = .ok [3, 2, 2] ∧ ([3, 2, 2] : List Int).sum = 7 := by
  obtain ⟨l, hok, hl, -, -, -, hsum, -⟩ :=
    split_array_chunks_partition 7 3 (by decide) (by decide)
  have hl' : l = [3, 2, 2] := by rw [hl]; rfl
  rw [hl'] at hok hsum
  exact ⟨hok, hsum⟩

/-- Claim C3: `split_array_chunks n blocks` fails (with a `ValueError`, here
the `.error` case) if and only if `blocks > n`, `n ≤ 0`, or `blocks ≤ 0`; the
message raised in each of the three cases is the corresponding f-string and
the three message families are pairwise distinct for all inputs; on failure
the result is the bare error and carries no chunk data (all-or-nothing). -/
theorem split_array_chunks_error_iff (n blocks : Int) :
    ((∃ e, split_array_chunks n blocks = .error e) ↔
      blocks > n ∨ n ≤ 0 ∨ blocks ≤ 0) ∧
    (blocks > n → split_array_chunks n blocks = .error (msgBlocksGtN blocks n)) ∧
    (blocks ≤ n → n ≤ 0 → split_array_chunks n blocks = .error (msgNLeZero n)) ∧
    (blocks ≤ n → 0 < n → blocks ≤ 0 →
      split_array_chunks n blocks = .error (msgBlocksLeZero blocks)) ∧
    (∀ b' n' : Int,
      msgBlocksGtN blocks n ≠ msgNLeZero n' ∧
      msgBlocksGtN blocks n ≠ msgBlocksLeZero b' ∧
      msgNLeZero n ≠ msgBlocksLeZero b') := by
  refine ⟨⟨?_, ?_⟩, ?_, ?_, ?_, ?_⟩
  · intro ⟨e, he⟩
    by_contra hcon
    push_neg at hcon
    obtain ⟨ha, hb, hc⟩ := hcon
    rw [split_array_chunks, if_neg (by omega), if_neg (by omega),
      if_neg (by omega)] at he
    exact absurd he (by simp)
  · intro h
    rcases h with h | h | h
    · exact ⟨_, by rw [split_array_chunks, if_pos h]⟩
    · by_cases hgt : blocks > n
      · exact ⟨_, by rw [split_array_chunks, if_pos hgt]⟩
      · exact ⟨_, by rw [split_array_chunks, if_neg hgt, if_pos h]⟩
    · by_cases hgt : blocks > n
      · exact ⟨_, by rw [split_array_chunks, if_pos hgt]⟩
      · by_cases hn : n ≤ 0
        · exact ⟨_, by rw [split_array_chunks, if_neg hgt, if_pos hn]⟩
        · exact ⟨_, by rw [split_array_chunks, if_neg hgt, if_neg hn, if_pos h]⟩
  · intro h
    rw [split_array_chunks, if_pos h]
  · intro h1 h2
    rw [split_array_chunks, if_neg (by omega), if_pos h2]
  · intro h1 h2 h3
    rw [split_array_chunks, if_neg (by omega), if_neg (by omega), if_pos h3]
  · intro b' n'
    exact ⟨msgBlocksGtN_ne_msgNLeZero _ _ _, msgBlocksGtN_ne_msgBlocksLeZero _ _ _,
      msgNLeZero_ne_msgBlocksLeZero _ _⟩

/-- Witness for C3 at the concrete input `(n, blocks) = (3, 5)`. -/
theorem split_array_chunks_error_iff_witness :
    split_array_chunks 3 5 = .error (msgBlocksGtN 5 3) ∧
    msgBlocksGtN 5 3 ≠ msgNLeZero 3 := by
  have h := split_array_chunks_error_iff 3 5
  exact ⟨h.2.1 (by decide), (h.2.2.2.2 0 3).1⟩

/-- Claim C10: precondition violations of `split_array_chunks` are reported
with fixed precedence: `blocks > n` first, then `n ≤ 0`, then `blocks ≤ 0`.
In particular `split_array_chunks (-1) 0` (all three violated, since
`0 > -1`) raises the "more blocks than elements" message and
`split_array_chunks 0 0` (where `blocks > n` is false) raises the `n ≤ 0`
message. -/
theorem split_array_chunks_error_precedence :
    split_array_chunks (-1) 0 = .error (msgBlocksGtN 0 (-1)) ∧
    split_array_chunks 0 0 = .error (msgNLeZero 0) ∧
    (∀ n blocks : Int, blocks > n →
      split_array_chunks n blocks = .error (msgBlocksGtN blocks n)) ∧
    (∀ n blocks : Int, blocks ≤ n → n ≤ 0 →
      split_array_chunks n blocks = .error (msgNLeZero n)) ∧
    (∀ n blocks : Int, blocks ≤ n → 0 < n → blocks ≤ 0 →
      split_array_chunks n blocks = .error (msgBlocksLeZero blocks)) := by
  refine ⟨rfl, rfl, ?_, ?_, ?_⟩
  · intro n blocks h
    rw [split_array_chunks, if_pos h]
  · intro n blocks h1 h2
    rw [split_array_chunks, if_neg (by omega), if_pos h2]
  · intro n blocks h1 h2 h3
    rw [split_array_chunks, if_neg (by omega), if_neg (by omega), if_pos h3]

/-- Witness for C10: the general precedence facts applied at `(3, 5)` and
`(0, 1)`. -/
theorem split_array_chunks_error_precedence_witness :
    split_array_chunks 3 5 = .error (msgBlocksGtN 5 3) ∧
    split_array_chunks 0 1 = .error (msgBlocksGtN 1 0) := by
  have h := split_array_chunks_error_precedence
  exact ⟨h.2.2.1 3 5 (by decide), h.2.2.1 0 1 (by decide)⟩

/-- Claim C5: if the value is missing any of the attributes `ndim`, `dtype`,
`shape`, then `check_array_like` fails with a `TypeError` (type-contract
violation) naming the missing attribute, testing the attributes in the fixed
order `ndim`, `dtype`, `shape` and reporting the first one missing; no
dtype/kind/ndim constraint check is performed — the result is independent of
those arguments. -/
theorem check_array_like_missing_attr (a : ArrayValue)
    (d : Option (SetOr DTypeExpr)) (k : Option (SetOr String))
    (n : Option (SetOr Nat))
    (h : ¬(hasattr a "ndim" = true ∧ hasattr a "dtype" = true ∧
        hasattr a "shape" = true)) :
    check_array_like a d k n = .error (.missingAttr
      (if hasattr a "ndim" = false then "ndim"
       else if hasattr a "dtype" = false then "dtype" else "shape")) ∧
    (∀ e, check_array_like a d k n = .error e → e.isTypeError = true) ∧
    (∀ d' k' n', check_array_like a d k n = check_array_like a d' k' n') := by
  have hm := attrCheck_missing a h
  refine ⟨check_of_attrError a d k n _ hm, ?_, ?_⟩
  · intro e he
    rw [check_of_attrError a d k n _ hm] at he
    simp only [Except.error.injEq] at he
    rw [← he]
    rfl
  · intro d' k' n'
    rw [check_of_attrError a d k n _ hm, check_of_attrError a d' k' n' _ hm]

/-- Witness for C5: values missing `ndim` (resp. `dtype`) are rejected naming
`ndim` (resp. `dtype`), even alongside constraint arguments. -/
theorem check_array_like_missing_attr_witness :
    check_array_like ⟨none, some ⟨"int64", "i"⟩, some [3]⟩ none none
        (some (.single 1)) = .error (.missingAttr "ndim") ∧
    check_array_like ⟨some 1, none, some [3]⟩ none none none =
      .error (.missingAttr "dtype") := by
  have h1 := check_array_like_missing_attr ⟨none, some ⟨"int64", "i"⟩, some [3]⟩
    none none (some (.single 1)) (by decide)
  have h2 := check_array_like_missing_attr ⟨some 1, none, some [3]⟩
    none none none (by decide)
  exact ⟨h1.1.trans (by rfl), h2.1.trans (by rfl)⟩

/-- Claim C6: the checks of `check_array_like` short-circuit in the order
attributes, dtype, kind, ndim; a missing attribute or a dtype/kind mismatch
is a `TypeError` while an ndim mismatch is a `ValueError`; success returns
the bare unit value. -/
theorem check_array_like_short_circuit (a : ArrayValue)
    (d : Option (SetOr DTypeExpr)) (k : Option (SetOr String))
    (n : Option (SetOr Nat)) :
    (∀ e, attrCheck a = .error e →
      check_array_like a d k n = .error e ∧ e.isTypeError = true) ∧
    (∀ e, attrCheck a = .ok () → dtypeCheck a d = .error e →
      check_array_like a d k n = .error e ∧ e.isTypeError = true) ∧
    (∀ e, attrCheck a = .ok () → dtypeCheck a d = .ok () →
      kindCheck a k = .error e →
      check_array_like a d k n = .error e ∧ e.isTypeError = true) ∧
    (attrCheck a = .ok () → dtypeCheck a d = .ok () → kindCheck a k = .ok () →
      check_array_like a d k n = ndimCheck a n) ∧
    (∀ e, ndimCheck a n = .error e → e.isTypeError = false) ∧
    (attrCheck a = .ok () → dtypeCheck a d = .ok () → kindCheck a k = .ok () →
      ndimCheck a n = .ok () → check_array_like a d k n = .ok ()) := by
  refine ⟨?_, ?_, ?_, ?_, ?_, ?_⟩
  · intro e he
    exact ⟨check_of_attrError a d k n e he, attrCheck_error_isTypeError a e he⟩
  · intro e h1 h2
    exact ⟨check_of_dtypeError a d k n e h1 h2,
      dtypeCheck_error_isTypeError a d e h2⟩
  · intro e h1 h2 h3
    exact ⟨check_of_kindError a d k n e h1 h2 h3,
      kindCheck_error_isTypeError a k e h3⟩
  · exact check_of_allOk a d k n
  · exact ndimCheck_error_isValueError a n
  · intro h1 h2 h3 h4
    rw [check_of_allOk a d k n h1 h2 h3, h4]

/-- Witness for C6: a dtype mismatch preempts kind and ndim constraints that
would also fail, and is a `TypeError`. -/
theorem check_array_like_short_circuit_witness :
    check_array_like ⟨some 2, some ⟨"int64", "i"⟩, some [3, 4]⟩
        (some (.single ⟨"f8", ⟨"float64", "f"⟩⟩)) (some (.set []))
        (some (.single 0)) =
      .error (.dtypeMismatch ⟨"int64", "i"⟩ ⟨"float64", "f"⟩) ∧
    (CheckError.dtypeMismatch ⟨"int64", "i"⟩ ⟨"float64", "f"⟩).isTypeError
      = true := by
  have h := check_array_like_short_circuit ⟨some 2, some ⟨"int64", "i"⟩, some [3, 4]⟩
    (some (.single ⟨"f8", ⟨"float64", "f"⟩⟩)) (some (.set [])) (some (.single 0))
  exact h.2.1 (.dtypeMismatch ⟨"int64", "i"⟩ ⟨"float64", "f"⟩) rfl rfl

/-- Claim C7: with a set-valued `dtype`, `kind`, or `ndim` constraint (and a
value that has the three attributes), `check_array_like` succeeds iff the
value's corresponding attribute is a member of the (for dtype: normalized)
set, and on failure the error carries the full set of acceptable values. -/
theorem check_array_like_set_membership (a : ArrayValue)
    (ts : List DTypeExpr) (ks : List String) (ns : List Nat)
    (h : attrCheck a = .ok ()) :
    (check_array_like a (some (.set ts)) none none = .ok () ↔
      a.dtype ∈ ts.map npDtype) ∧
    (a.dtype ∉ ts.map npDtype →
      check_array_like a (some (.set ts)) none none =
        .error (.dtypeNotInSet a.dtype (ts.map npDtype))) ∧
    (check_array_like a none (some (.set ks)) none = .ok () ↔
      a.dtype.kind ∈ ks) ∧
    (a.dtype.kind ∉ ks →
      check_array_like a none (some (.set ks)) none =
        .error (.kindNotInSet a.dtype.kind ks)) ∧
    (check_array_like a none none (some (.set ns)) = .ok () ↔ a.ndim ∈ ns) ∧
    (a.ndim ∉ ns →
      check_array_like a none none (some (.set ns)) =
        .error (.ndimNotInSet a.ndim ns)) := by
  have hdt : a.dtype ∈ ts.map npDtype →
      dtypeCheck a (some (.set ts)) = .ok () := by
    intro m; simp [dtypeCheck, m]
  have hdt' : a.dtype ∉ ts.map npDtype →
      dtypeCheck a (some (.set ts)) =
        .error (.dtypeNotInSet a.dtype (ts.map npDtype)) := by
    intro m; simp [dtypeCheck, m]
  have hkd : a.dtype.kind ∈ ks → kindCheck a (some (.set ks)) = .ok () := by
    intro m; simp [kindCheck, m]
  have hkd' : a.dtype.kind ∉ ks →
      kindCheck a (some (.set ks)) = .error (.kindNotInSet a.dtype.kind ks) := by
    intro m; simp [kindCheck, m]
  have hnd : a.ndim ∈ ns → ndimCheck a (some (.set ns)) = .ok () := by
    intro m; simp [ndimCheck, m]
  have hnd' : a.ndim ∉ ns →
      ndimCheck a (some (.set ns)) = .error (.ndimNotInSet a.ndim ns) := by
    intro m; simp [ndimCheck, m]
  refine ⟨?_, ?_, ?_, ?_, ?_, ?_⟩
  · constructor
    · intro hok
      by_contra m
      rw [check_of_dtypeError a _ none none _ h (hdt' m)] at hok
      cases hok
    · intro m
      rw [check_of_allOk a _ none none h (hdt m) rfl]
      rfl
  · intro m
    exact check_of_dtypeError a _ none none _ h (hdt' m)
  · constructor
    · intro hok
      by_contra m
      rw [check_of_kindError a none _ none _ h rfl (hkd' m)] at hok
      cases hok
    · intro m
      rw [check_of_allOk a none _ none h rfl (hkd m)]
      rfl
  · intro m
    exact check_of_kindError a none _ none _ h rfl (hkd' m)
  · constructor
    · intro hok
      by_contra m
      rw [check_of_allOk a none none _ h rfl rfl, hnd' m] at hok
      cases hok
    · intro m
      rw [check_of_allOk a none none _ h rfl rfl, hnd m]
  · intro m
    rw [check_of_allOk a none none _ h rfl rfl, hnd' m]

/-- Witness for C7: a dtype set containing the value's dtype is accepted; an
ndim set not containing the value's dimensionality is rejected with the full
set carried in the error. -/
theorem check_array_like_set_membership_witness :
    check_array_like ⟨some 2, some ⟨"int64", "i"⟩, some [3, 4]⟩
        (some (.set [⟨"i8", ⟨"int64", "i"⟩⟩])) none none = .ok () ∧
    check_array_like ⟨some 2, some ⟨"int64", "i"⟩, some [3, 4]⟩
        none none (some (.set [0, 1])) = .error (.ndimNotInSet 2 [0, 1]) := by
  have h := check_array_like_set_membership
    ⟨some 2, some ⟨"int64", "i"⟩, some [3, 4]⟩
    [⟨"i8", ⟨"int64", "i"⟩⟩] [] [0, 1] rfl
  exact ⟨h.1.mpr (by decide), (h.2.2.2.2.2 (by decide)).trans (by rfl)⟩

/-- Claim C1: for every input sequence `values`, `encode_array values` returns
`(codes, uniques)` with `uniques[codes[i]] = values[i]` for every index `i`,
and `uniques` lists the distinct values ordered by the index of their first
occurrence in `values` (strictly increasing first-occurrence indices: order
of first appearance, not natural sort order). -/
theorem encode_array_first_appearance (x : List α) :
    (∀ i, i < x.length →
      ((encode_array x).2)[((encode_array x).1).getD i 0]? = x[i]?) ∧
    List.Pairwise (fun u v => x.indexOf u < x.indexOf v) (encode_array x).2 ∧
    (∀ v, v ∈ (encode_array x).2 ↔ v ∈ x) ∧
    (encode_array x).2.Nodup := by
  rw [encode_array_eq]
  refine ⟨?_, pairwise_uniqueInOrder x, mem_uniqueInOrder x, nodup_uniqueInOrder x⟩
  intro i hi
  have hcode : (x.map (fun v => (uniqueInOrder x).indexOf v)).getD i 0 =
      (uniqueInOrder x).indexOf x[i] := by
    rw [List.getD_eq_getElem _ 0 (by rwa [List.length_map]), List.getElem_map]
  rw [hcode]
  have hmem : x[i] ∈ uniqueInOrder x :=
    (mem_uniqueInOrder x _).mpr (List.getElem_mem hi)
  have hlt : (uniqueInOrder x).indexOf x[i] < (uniqueInOrder x).length :=
    List.indexOf_lt_length.mpr hmem
  rw [List.getElem?_eq_getElem hlt, List.getElem_indexOf hlt,
    List.getElem?_eq_getElem hi]

/-- Witness for C1 at `values = ['c', 'a', 'a', 'b']` and `i = 0`. -/
theorem encode_array_first_appearance_witness :
    (0 < (['c', 'a', 'a', 'b'] : List Char).length) ∧
    ((encode_array ['c', 'a', 'a', 'b']).2)[((encode_array
      ['c', 'a', 'a', 'b']).1).getD 0 0]? = (['c', 'a', 'a', 'b'])[0]? :=
  ⟨by decide, (encode_array_first_appearance ['c', 'a', 'a', 'b']).1 0 (by decide)⟩

/-- Claim C4: for every input of length `M` with `K` distinct values,
`encode_array` returns `codes` of length exactly `M` whose entries are
exactly the dense range `0 .. K-1` (a value occurs in `codes` iff it is less
than `K`), and `uniques` of length `K ≤ M` with no duplicates; the encoding
is a pure function of the input (it is a Lean function). -/
theorem encode_array_dense (x : List α) :
    (encode_array x).1.length = x.length ∧
    (∀ c, c ∈ (encode_array x).1 ↔ c < (encode_array x).2.length) ∧
    (encode_array x).2.length ≤ x.length ∧
    (encode_array x).2.Nodup := by
  rw [encode_array_eq]
  refine ⟨List.length_map _ _, ?_, length_uniqueInOrder x, nodup_uniqueInOrder x⟩
  intro c
  rw [List.mem_map]
  constructor
  · rintro ⟨v, hv, rfl⟩
    exact List.indexOf_lt_length.mpr ((mem_uniqueInOrder x v).mpr hv)
  · intro hc
    refine ⟨(uniqueInOrder x)[c], ?_, ?_⟩
    · exact (mem_uniqueInOrder x _).mp (List.getElem_mem hc)
    · have hnd := nodup_uniqueInOrder x
      have hmem : (uniqueInOrder x)[c] ∈ uniqueInOrder x := List.getElem_mem hc
      have hlt : (uniqueInOrder x).indexOf (uniqueInOrder x)[c] <
          (uniqueInOrder x).length := List.indexOf_lt_length.mpr hmem
      refine List.getElem?_inj hlt hnd ?_
      rw [List.getElem?_eq_getElem hlt, List.getElem?_eq_getElem hc,
        List.getElem_indexOf hlt]

/-- Claim C8: `encode_array` applied to the empty sequence returns an empty
codes sequence and an empty uniques sequence. -/
theorem encode_array_empty : encode_array ([] : List α) = ([], []) := by
  rw [encode_array_eq]
  rfl

/-- Claim C9: `encode_array ['c', 'a', 'a', 'b']` returns codes
`[0, 1, 1, 2]` and uniques `['c', 'a', 'b']` — first-appearance order, with
`'c'` receiving code 0 although natural sort order would place `'a'` first. -/
theorem encode_array_example :
    encode_array ['c', 'a', 'a', 'b'] = ([0, 1, 1, 2], ['c', 'a', 'b']) := by
  rw [encode_array_eq]
  decide

end Sgkit
